import Mathlib

/-!
A verification model of the retrieval pipeline of the Rag repository
(`src/app/embedding.py`, `src/app/main.py`, `src/app/mistral_api.py`,
`src/frontend.py`).

Modelling conventions:
* Python strings are modelled as `List Char`; opaque labels (file names /
  source labels) that are never inspected character-by-character are kept
  as `String`.
* The PostgreSQL tables behind SQLAlchemy are modelled as in-memory lists
  of rows kept in insertion order; `ORDER BY ... ASC` is modelled as a
  stable sort of that list, so rows at equal sort keys come out in
  insertion order.
* pgvector's `l2_distance` ranking is modelled by the squared Euclidean
  distance over integer vectors: `sqrt` is monotone, so ordering by the
  squared distance is the same ordering.
* External collaborators (the sentence-transformer encoder, the Mistral
  chat-completions call) are passed in as function parameters returning
  `Except`, mirroring that both are fallible calls the pipeline does not
  control.
* A SQLAlchemy session stages `db.add` calls and publishes them only at
  `db.commit()`; a session closed without commit rolls the staged rows
  back.  Flows therefore return the committed database state next to
  their outcome.
-/

namespace Rag

/-! ### Chunker (`src/app/embedding.py`, `chunk_text`) -/

/-- Python's `str.split()` with no separator: accumulate maximal runs of
non-whitespace characters, discarding whitespace; `acc` holds the
(reversed) pending token. -/
def splitAcc : List Char → List Char → List (List Char)
  | [], acc => if acc.isEmpty then [] else [acc.reverse]
  | c :: cs, acc =>
    if c.isWhitespace then
      if acc.isEmpty then splitAcc cs [] else acc.reverse :: splitAcc cs []
    else
      splitAcc cs (c :: acc)

/-- `text.split()` in `chunk_text`: the whitespace-separated tokens of a
Python string. -/
def pySplit (t : List Char) : List (List Char) :=
  splitAcc t []

/-- Structural worker for `window`: each recursive step consumes at least
the head of the list, so any `fuel ≥ length` gives the same result; the
`fuel = 0` branch on a nonempty list is unreachable under that bound. -/
def windowAux (m : Nat) : Nat → List (List Char) → List (List (List Char))
  | _, [] => []
  | 0, _ :: _ => []
  | fuel + 1, w :: ws => (w :: ws.take (m - 1)) :: windowAux m fuel (ws.drop (m - 1))

/-- The slicing loop of `chunk_text`: `words[i:i+max_words]` for
`i in range(0, len(words), max_words)`, i.e. contiguous non-overlapping
windows of at most `m` tokens.  Python's `range` raises for step `0`, so
the model is used at `m ≥ 1`, where `w :: ws.take (m-1)` is exactly
`(w :: ws).take m` and `ws.drop (m-1)` is `(w :: ws).drop m`. -/
def window (m : Nat) (ts : List (List Char)) : List (List (List Char)) :=
  windowAux m ts.length ts

/-- `' '.join(words)`: tokens joined by single spaces. -/
def joinSp (ts : List (List Char)) : List Char :=
  List.intercalate [' '] ts

/-- `chunk_text(text, max_words=100)` from `src/app/embedding.py`:
split on whitespace, then join each `max_words`-sized window of tokens
with single spaces. -/
def chunk_text (t : List Char) (m : Nat := 100) : List (List Char) :=
  (window m (pySplit t)).map joinSp

/-- The whitespace-normalized form of a text: its tokens rejoined with
single spaces (the spec's "whitespace-normalized original text"). -/
def normalizeWs (t : List Char) : List Char :=
  joinSp (pySplit t)

/-! ### Embedder module (`src/app/embedding.py`) -/

/-- A Python runtime error surfaced by the model. -/
inductive PyErr where
  | nameError (name : String)
deriving DecidableEq

/-- The names bound at module level in `src/app/embedding.py`: the two
imports and the two function definitions.  The `SentenceTransformer`
constructor call on line 6 is evaluated but its result is bound to no
name — in particular `embedder` is never defined. -/
def embedding_module_globals : List String :=
  ["SentenceTransformer", "np", "chunk_text", "get_embedding"]

/-- `get_embedding(text)` from `src/app/embedding.py`: the body evaluates
the global name `embedder` and calls `.encode` on it.  `encode` models
what the encoder would return if the name resolved; name resolution is
against `embedding_module_globals`. -/
def get_embedding (encode : List Char → List Int) (text : List Char) :
    Except PyErr (List Int) :=
  if "embedder" ∈ embedding_module_globals then .ok (encode text)
  else .error (.nameError "embedder")

/-! ### Data model (`src/app/models.py`) -/

/-- A row of the `documents` table: one embedded chunk. -/
structure Document where
  id : Nat
  chunk : List Char
  embedding : List Int
  source : String
  user_id : Nat
deriving DecidableEq

/-- A row of the `chat_history` table. -/
structure ChatHistory where
  id : Nat
  question : List Char
  answer : List Char
  user_id : Nat
deriving DecidableEq

/-- The committed database state: both tables as row lists in insertion
order. -/
structure DB where
  documents : List Document
  chat_history : List ChatHistory
deriving DecidableEq

/-- The next fresh primary key for `documents` (serial column). -/
def nextDocId (db : DB) : Nat :=
  (db.documents.map Document.id).foldr max 0 + 1

/-- The next fresh primary key for `chat_history` (serial column). -/
def nextHistId (db : DB) : Nat :=
  (db.chat_history.map ChatHistory.id).foldr max 0 + 1

/-! ### Vector store reads (`ask_question`'s `select` statement) -/

/-- Squared Euclidean distance between two vectors; ordering by it agrees
with ordering by pgvector's `l2_distance` since `sqrt` is monotone. -/
def dist2 (u v : List Int) : Int :=
  (List.zipWith (fun a b => (a - b) * (a - b)) u v).sum

/-- Insert a row into a distance-sorted list, before the first row at
greater-or-equal distance. -/
def insertByDist (q : List Int) (d : Document) : List Document → List Document
  | [] => [d]
  | e :: es =>
    if dist2 q d.embedding ≤ dist2 q e.embedding then d :: e :: es
    else e :: insertByDist q d es

/-- One admissible evaluation of
`ORDER BY Document.embedding.l2_distance(query_vector)`: an insertion
sort of the rows by ascending distance, used as the executable model
inside the flow functions.  The `ORDER BY` in the source has no
secondary sort key, so the program fixes no particular order among
equal-distance rows; the program-level guarantee is the relation
`nearestResult` below, and `orderByDist` realizes one of its admissible
outcomes. -/
def orderByDist (q : List Int) (l : List Document) : List Document :=
  l.foldr (insertByDist q) []

/-- The retrieval statement of `ask_question` (`src/app/main.py` lines
118-125, identically `src/frontend.py` lines 129-135), with the `limit`
generalized from the literal `3` to `k`: filter the owner's rows, order
by ascending L2 distance (one admissible ordering), keep the first
`k`. -/
def nearest (docs : List Document) (uid : Nat) (q : List Int) (k : Nat) :
    List Document :=
  (orderByDist q (docs.filter (fun d => d.user_id == uid))).take k

/-- What the database actually guarantees for the retrieval statement:
the result is the first `k` rows of SOME ordering `s` of the owner's
rows that is non-strictly sorted by ascending distance.  The query has
no secondary sort key and PostgreSQL leaves the relative order of
equal-key rows unspecified, so retrieval is a relation on results, not a
function. -/
def nearestResult (docs : List Document) (uid : Nat) (q : List Int)
    (k : Nat) (r : List Document) : Prop :=
  ∃ s : List Document,
    s.Perm (docs.filter (fun d => d.user_id == uid)) ∧
    s.Pairwise (fun a b => dist2 q a.embedding ≤ dist2 q b.embedding) ∧
    r = s.take k

/-! ### Flows (`src/app/main.py`, `src/frontend.py`) -/

/-- A dependency failure: the embedding call or the Mistral
chat-completions call raising. -/
inductive DepErr where
  | embedFail
  | generateFail
deriving DecidableEq

instance {ε α : Type} [DecidableEq ε] [DecidableEq α] :
    DecidableEq (Except ε α) := fun a b =>
  match a, b with
  | .error x, .error y => decidable_of_iff (x = y) (by simp)
  | .ok x, .ok y => decidable_of_iff (x = y) (by simp)
  | .error _, .ok _ => isFalse (by simp)
  | .ok _, .error _ => isFalse (by simp)

/-- Embed the chunks one by one, in order, stopping at the first failing
chunk — the `for chunk in chunks` loop body of `ingest_file` up to
`db.add`. -/
def embedAll (embed : List Char → Except DepErr (List Int)) :
    List (List Char) → Except DepErr (List (List Char × List Int))
  | [] => .ok []
  | c :: cs =>
    match embed c with
    | .error e => .error e
    | .ok v =>
      match embedAll embed cs with
      | .error e => .error e
      | .ok rest => .ok ((c, v) :: rest)

/-- `ingest_file` (`src/app/main.py` lines 75-110), after text
extraction: chunk the text with the default `max_words=100`, embed each
chunk and stage a `Document` row, then `db.commit()` once after the loop.
If any embedding raises, the commit is never reached and the session is
closed without committing, so the staged rows are rolled back and the
committed state is unchanged. -/
def ingest_file (embed : List Char → Except DepErr (List Int))
    (filename : String) (text : List Char) (uid : Nat) (db : DB) :
    DB × Except DepErr Unit :=
  let chunks := chunk_text text 100
  match embedAll embed chunks with
  | .error e => (db, .error e)
  | .ok pairs =>
    ({ db with
        documents := db.documents ++ pairs.enum.map (fun p =>
          { id := nextDocId db + p.1
            chunk := p.2.1
            embedding := p.2.2
            source := filename
            user_id := uid }) },
     .ok ())

/-- The fixed sentinel answer of the query flow. -/
def sentinel : List Char :=
  "No relevant information found in your documents.".data

/-- `ask_question` (`src/app/main.py` lines 115-138): embed the query,
retrieve the top 3 rows for the current user, and
* if retrieval is empty, return the sentinel answer immediately — the
  `# Save chat history` block below is not reached, so no `ChatHistory`
  row is added;
* otherwise call `ask_mistral`; if it raises, the exception propagates
  before `db.add(chat)`, leaving the database unchanged; on success a
  history row is added and committed. -/
def ask_question (embed : List Char → Except DepErr (List Int))
    (generate : List Char → List (List Char) → Except DepErr (List Char))
    (query : List Char) (uid : Nat) (db : DB) :
    DB × Except DepErr (List Char) :=
  match embed query with
  | .error e => (db, .error e)
  | .ok query_vector =>
    let top_docs := nearest db.documents uid query_vector 3
    if top_docs.isEmpty then
      (db, .ok sentinel)
    else
      match generate query (top_docs.map Document.chunk) with
      | .error e => (db, .error e)
      | .ok answer =>
        ({ db with
            chat_history := db.chat_history ++
              [{ id := nextHistId db, question := query, answer := answer,
                 user_id := uid }] },
         .ok answer)

/-- The message `str(e)` wrapped by the front end's `except` clauses. -/
def errText : DepErr → List Char
  | .embedFail => "Error: embedding failed".data
  | .generateFail => "Error: generation failed".data

/-- `ask_question` (`src/frontend.py` lines 122-152): same retrieval, but
the empty case sets `answer` to the sentinel and falls through to the
`db.add(chat)` / `db.commit()` lines, so a history row IS appended; any
exception (embedding or `ask_mistral`) is caught and an error string is
returned, with no history row added. -/
def ask_question_frontend (embed : List Char → Except DepErr (List Int))
    (generate : List Char → List (List Char) → Except DepErr (List Char))
    (query : List Char) (uid : Nat) (db : DB) : DB × List Char :=
  match embed query with
  | .error e => (db, errText e)
  | .ok query_vector =>
    let top_docs := nearest db.documents uid query_vector 3
    match
      (if top_docs.isEmpty then .ok sentinel
       else generate query (top_docs.map Document.chunk) :
        Except DepErr (List Char)) with
    | .error e => (db, errText e)
    | .ok answer =>
      ({ db with
          chat_history := db.chat_history ++
            [{ id := nextHistId db, question := query, answer := answer,
               user_id := uid }] },
       answer)

/-! ### Deletion flows -/

/-- An `HTTPException` raised by a FastAPI endpoint. -/
inductive HttpErr where
  | httpException (status : Nat) (detail : String)
deriving DecidableEq

/-- The row predicate of both delete-by-source queries: the current
user's rows with the given source label. -/
def matchesSource (uid : Nat) (source : String) (d : Document) : Bool :=
  d.user_id == uid && d.source == source

/-- `delete_documents_by_source` (`src/app/main.py` lines 145-161): bulk
delete the matching rows, `db.commit()`, then — after the commit — raise
`HTTPException(404)` when the deleted count is `0`, otherwise report the
count. -/
def delete_documents_by_source (source : String) (uid : Nat) (db : DB) :
    DB × Except HttpErr Nat :=
  let deleted_count := db.documents.countP (matchesSource uid source)
  let committed : DB :=
    { db with documents := db.documents.filter (fun d => !matchesSource uid source d) }
  if deleted_count == 0 then
    (committed, .error (.httpException 404 "No documents found for this source"))
  else
    (committed, .ok deleted_count)

/-- `delete_documents_by_source` (`src/frontend.py` lines 184-200): same
bulk delete, but the count is returned as-is — `0` is not an error. -/
def delete_documents_by_source_frontend (source : String) (uid : Nat)
    (db : DB) : DB × Nat :=
  ({ db with documents := db.documents.filter (fun d => !matchesSource uid source d) },
   db.documents.countP (matchesSource uid source))

/-- `delete_chat_history` (`src/frontend.py` lines 202-217): an empty id
list returns `0` before touching the database; otherwise the current
user's rows whose id is in the list are bulk-deleted and counted. -/
def delete_chat_history (history_ids : List Nat) (uid : Nat) (db : DB) :
    DB × Nat :=
  if history_ids.isEmpty then (db, 0)
  else
    let pred := fun (h : ChatHistory) => history_ids.contains h.id && h.user_id == uid
    ({ db with chat_history := db.chat_history.filter (fun h => !pred h) },
     db.chat_history.countP pred)

/-! ### Concrete instances used by witnesses and counterexamples -/

/-- A sample store: three rows of owner 1 and one row of owner 2, ids in
insertion order, with a distance tie between rows 1 and 4 at query
`[0, 0]`. -/
def sampleDocs : List Document :=
  [{ id := 1, chunk := "alpha".data, embedding := [0, 0], source := "a.txt", user_id := 1 },
   { id := 2, chunk := "beta".data, embedding := [3, 0], source := "a.txt", user_id := 1 },
   { id := 3, chunk := "gamma".data, embedding := [0, 0], source := "b.txt", user_id := 2 },
   { id := 4, chunk := "delta".data, embedding := [0, 0], source := "a.txt", user_id := 1 }]

/-- A row of owner 1; same embedding as `docBeta`, so the two rows are at
exactly equal distance from every query vector. -/
def docAlpha : Document :=
  { id := 1, chunk := "alpha".data, embedding := [0], source := "a.txt",
    user_id := 1 }

/-- A row of owner 1 inserted after `docAlpha`, with the same
embedding. -/
def docBeta : Document :=
  { id := 2, chunk := "beta".data, embedding := [0], source := "a.txt",
    user_id := 1 }

/-- 101 copies of the word `a` separated by single spaces; under the
default `max_words = 100` this chunks into a 100-word chunk followed by a
single-word chunk. -/
def text101 : List Char :=
  joinSp (List.replicate 101 ['a'])

/-- An embedder that raises exactly on one-character chunks: it succeeds
on the first (100-word) chunk of `text101` and fails on the second. -/
def embedShortFail : List Char → Except DepErr (List Int) :=
  fun c => if c.length ≤ 1 then .error .embedFail else .ok [0]

/-! ### Chunker lemmas -/

theorem windowAux_flatten (m : Nat) :
    ∀ (fuel : Nat) (ts : List (List Char)), ts.length ≤ fuel →
      (windowAux m fuel ts).flatten = ts := by
  intro fuel
  induction fuel with
  | zero =>
    intro ts h
    have : ts = [] := List.eq_nil_of_length_eq_zero (Nat.le_zero.mp h)
    subst this
    rfl
  | succ fuel ih =>
    intro ts h
    match ts with
    | [] => rfl
    | w :: ws =>
      simp only [List.length_cons] at h
      simp only [windowAux, List.flatten_cons]
      rw [ih (ws.drop (m - 1)) (by simp only [List.length_drop]; omega)]
      simp [List.take_append_drop]

theorem window_flatten (m : Nat) (ts : List (List Char)) :
    (window m ts).flatten = ts :=
  windowAux_flatten m ts.length ts (Nat.le_refl _)

theorem windowAux_mem_ne_nil (m : Nat) :
    ∀ (fuel : Nat) (ts : List (List Char)) (w : List (List Char)),
      w ∈ windowAux m fuel ts → w ≠ [] := by
  intro fuel
  induction fuel with
  | zero =>
    intro ts w hw
    match ts with
    | [] => simp [windowAux] at hw
    | _ :: _ => simp [windowAux] at hw
  | succ fuel ih =>
    intro ts w hw
    match ts with
    | [] => simp [windowAux] at hw
    | x :: xs =>
      simp only [windowAux, List.mem_cons] at hw
      rcases hw with h | h
      · subst h; simp
      · exact ih _ _ h

theorem windowAux_mem_length (m : Nat) (hm : 0 < m) :
    ∀ (fuel : Nat) (ts : List (List Char)) (w : List (List Char)),
      w ∈ windowAux m fuel ts → w.length ≤ m := by
  intro fuel
  induction fuel with
  | zero =>
    intro ts w hw
    match ts with
    | [] => simp [windowAux] at hw
    | _ :: _ => simp [windowAux] at hw
  | succ fuel ih =>
    intro ts w hw
    match ts with
    | [] => simp [windowAux] at hw
    | x :: xs =>
      simp only [windowAux, List.mem_cons] at hw
      rcases hw with h | h
      · subst h
        simp only [List.length_cons, List.length_take]
        omega
      · exact ih _ _ h

theorem intercalate_cons_ne (s x : List Char) (l : List (List Char))
    (hl : l ≠ []) :
    List.intercalate s (x :: l) = x ++ s ++ List.intercalate s l := by
  match l with
  | [] => exact absurd rfl hl
  | y :: l' => simp [List.intercalate, List.intersperse]

theorem intercalate_append_ne (s : List Char) :
    ∀ (xs ys : List (List Char)), xs ≠ [] → ys ≠ [] →
      List.intercalate s (xs ++ ys) =
        List.intercalate s xs ++ s ++ List.intercalate s ys := by
  intro xs
  induction xs with
  | nil => intro ys h; exact absurd rfl h
  | cons x xs ih =>
    intro ys _ hys
    match xs with
    | [] =>
      simpa [List.intercalate] using intercalate_cons_ne s x ys hys
    | x' :: xs' =>
      have h1 : (x' :: xs') ++ ys ≠ [] := by simp
      rw [List.cons_append, intercalate_cons_ne s x _ h1,
        ih ys (by simp) hys, intercalate_cons_ne s x (x' :: xs') (by simp)]
      simp [List.append_assoc]

theorem flatten_ne_nil (P : List (List (List Char))) (hP : P ≠ [])
    (hb : ∀ b ∈ P, b ≠ []) : P.flatten ≠ [] := by
  match P with
  | [] => exact absurd rfl hP
  | b :: P' =>
    have hb' : b ≠ [] := hb b (by simp)
    match b with
    | [] => exact absurd rfl hb'
    | t :: b' => simp

theorem joinSp_cons_ne (x : List Char) (l : List (List Char)) (hl : l ≠ []) :
    joinSp (x :: l) = x ++ [' '] ++ joinSp l :=
  intercalate_cons_ne [' '] x l hl

theorem joinSp_append_ne (xs ys : List (List Char)) (hx : xs ≠ [])
    (hy : ys ≠ []) : joinSp (xs ++ ys) = joinSp xs ++ [' '] ++ joinSp ys :=
  intercalate_append_ne [' '] xs ys hx hy

theorem joinSp_single (x : List Char) : joinSp [x] = x := by
  simp [joinSp, List.intercalate]

theorem joinSp_blocks :
    ∀ (P : List (List (List Char))), (∀ b ∈ P, b ≠ []) →
      joinSp (P.map joinSp) = joinSp P.flatten := by
  intro P
  induction P with
  | nil => intro _; rfl
  | cons b P' ih =>
    intro hb
    match P' with
    | [] => simp [joinSp_single]
    | b' :: P'' =>
      have hbne : b ≠ [] := hb b (by simp)
      have hPne : (b' :: P'').flatten ≠ [] :=
        flatten_ne_nil _ (by simp) (fun x hx => hb x (List.mem_cons_of_mem _ hx))
      have hmap : (b' :: P'').map joinSp ≠ [] := by simp
      rw [List.map_cons, joinSp_cons_ne _ _ hmap,
        ih (fun x hx => hb x (List.mem_cons_of_mem _ hx))]
      have hPne' : b' ++ P''.flatten ≠ [] := by
        simpa using hPne
      show joinSp b ++ [' '] ++ joinSp (b' ++ P''.flatten) =
        joinSp (b ++ (b' ++ P''.flatten))
      rw [joinSp_append_ne b (b' ++ P''.flatten) hbne hPne']

theorem splitAcc_token_ne :
    ∀ (cs : List Char) (acc : List Char) (t : List Char),
      t ∈ splitAcc cs acc → t ≠ [] := by
  intro cs
  induction cs with
  | nil =>
    intro acc t ht
    simp only [splitAcc] at ht
    by_cases h : acc.isEmpty = true
    · rw [if_pos h] at ht
      simp at ht
    · rw [if_neg h] at ht
      have : t = acc.reverse := by simpa using ht
      subst this
      simp only [ne_eq, List.reverse_eq_nil_iff]
      intro hacc
      subst hacc
      simp at h
  | cons c cs ih =>
    intro acc t ht
    simp only [splitAcc] at ht
    by_cases hw : c.isWhitespace = true
    · rw [if_pos hw] at ht
      by_cases h : acc.isEmpty = true
      · rw [if_pos h] at ht
        exact ih [] t ht
      · rw [if_neg h] at ht
        rcases List.mem_cons.mp ht with h1 | h1
        · subst h1
          simp only [ne_eq, List.reverse_eq_nil_iff]
          intro hacc
          subst hacc
          simp at h
        · exact ih [] t h1
    · rw [if_neg hw] at ht
      exact ih (c :: acc) t ht

theorem splitAcc_token_nws :
    ∀ (cs : List Char) (acc : List Char),
      (∀ ch ∈ acc, ch.isWhitespace = false) →
      ∀ t ∈ splitAcc cs acc, ∀ ch ∈ t, ch.isWhitespace = false := by
  intro cs
  induction cs with
  | nil =>
    intro acc hacc t ht ch hch
    simp only [splitAcc] at ht
    by_cases h : acc.isEmpty = true
    · rw [if_pos h] at ht
      simp at ht
    · rw [if_neg h] at ht
      have : t = acc.reverse := by simpa using ht
      subst this
      exact hacc ch (List.mem_reverse.mp hch)
  | cons c cs ih =>
    intro acc hacc t ht ch hch
    simp only [splitAcc] at ht
    by_cases hw : c.isWhitespace = true
    · rw [if_pos hw] at ht
      by_cases h : acc.isEmpty = true
      · rw [if_pos h] at ht
        exact ih [] (by simp) t ht ch hch
      · rw [if_neg h] at ht
        rcases List.mem_cons.mp ht with h1 | h1
        · subst h1
          exact hacc ch (List.mem_reverse.mp hch)
        · exact ih [] (by simp) t h1 ch hch
    · rw [if_neg hw] at ht
      refine ih (c :: acc) ?_ t ht ch hch
      intro x hx
      rcases List.mem_cons.mp hx with h1 | h1
      · subst h1
        exact Bool.eq_false_iff.mpr hw
      · exact hacc x h1

/-- Consuming one whitespace-free token moves it (reversed) into the
accumulator. -/
theorem splitAcc_consume :
    ∀ (t : List Char) (rest acc : List Char),
      (∀ ch ∈ t, ch.isWhitespace = false) →
      splitAcc (t ++ rest) acc = splitAcc rest (t.reverse ++ acc) := by
  intro t
  induction t with
  | nil => intro rest acc _; simp
  | cons c t' ih =>
    intro rest acc ht
    have hc : ¬(c.isWhitespace = true) := by
      simp [ht c (by simp)]
    show splitAcc (c :: (t' ++ rest)) acc = _
    simp only [splitAcc]
    rw [if_neg hc]
    show splitAcc (t' ++ rest) (c :: acc) = _
    rw [ih rest (c :: acc) (fun ch hch => ht ch (List.mem_cons_of_mem _ hch))]
    simp

/-- Splitting a single-space join of nonempty whitespace-free tokens
recovers exactly those tokens. -/
theorem pySplit_joinSp :
    ∀ (ts : List (List Char)),
      (∀ t ∈ ts, t ≠ []) →
      (∀ t ∈ ts, ∀ ch ∈ t, ch.isWhitespace = false) →
      pySplit (joinSp ts) = ts := by
  intro ts
  induction ts with
  | nil => intro _ _; rfl
  | cons t ts' ih =>
    intro hne hnw
    have htne : t ≠ [] := hne t (by simp)
    have htnw : ∀ ch ∈ t, ch.isWhitespace = false := hnw t (by simp)
    have hrev : ¬(t.reverse.isEmpty = true) := by
      simp [List.isEmpty_iff, htne]
    match ts' with
    | [] =>
      rw [joinSp_single]
      unfold pySplit
      have hc : splitAcc (t ++ []) [] = splitAcc [] (t.reverse ++ []) :=
        splitAcc_consume t [] [] htnw
      simp only [List.append_nil] at hc
      rw [hc]
      simp only [splitAcc]
      rw [if_neg hrev]
      simp
    | t' :: ts'' =>
      rw [joinSp_cons_ne t (t' :: ts'') (by simp)]
      unfold pySplit
      rw [List.append_assoc,
        splitAcc_consume t ([' '] ++ joinSp (t' :: ts'')) [] htnw]
      have hsp : (' ' : Char).isWhitespace = true := by decide
      show splitAcc (' ' :: joinSp (t' :: ts'')) (t.reverse ++ []) = _
      simp only [splitAcc, hsp, if_true, List.append_nil]
      rw [if_neg hrev, List.reverse_reverse]
      have hih := ih (fun x hx => hne x (List.mem_cons_of_mem _ hx))
        (fun x hx => hnw x (List.mem_cons_of_mem _ hx))
      unfold pySplit at hih
      rw [hih]

/-- Whitespace-only input splits to no tokens at all. -/
theorem splitAcc_all_ws :
    ∀ (cs : List Char), (∀ c ∈ cs, c.isWhitespace = true) →
      splitAcc cs [] = [] := by
  intro cs
  induction cs with
  | nil => intro _; rfl
  | cons c cs ih =>
    intro h
    have hc : c.isWhitespace = true := h c (by simp)
    simp only [splitAcc, hc, if_true, List.isEmpty_nil]
    exact ih (fun x hx => h x (List.mem_cons_of_mem _ hx))

/-! ### Vector store ranking lemmas -/

theorem perm_insertByDist (q : List Int) (d : Document) :
    ∀ (l : List Document), (insertByDist q d l).Perm (d :: l) := by
  intro l
  induction l with
  | nil => exact List.Perm.refl _
  | cons e es ih =>
    simp only [insertByDist]
    by_cases h : dist2 q d.embedding ≤ dist2 q e.embedding
    · rw [if_pos h]
    · rw [if_neg h]
      exact ((List.perm_cons e).mpr ih).trans (List.Perm.swap d e es)

theorem mem_insertByDist (q : List Int) (d x : Document) (l : List Document) :
    x ∈ insertByDist q d l ↔ x = d ∨ x ∈ l := by
  rw [(perm_insertByDist q d l).mem_iff]
  simp

theorem perm_orderByDist (q : List Int) :
    ∀ (l : List Document), (orderByDist q l).Perm l := by
  intro l
  induction l with
  | nil => exact List.Perm.refl _
  | cons d l' ih =>
    have : orderByDist q (d :: l') = insertByDist q d (orderByDist q l') := rfl
    rw [this]
    exact (perm_insertByDist q d _).trans ((List.perm_cons d).mpr ih)

/-- Inserting into a distance-sorted list keeps it distance-sorted. -/
theorem pairwise_le_insertByDist (q : List Int) (d : Document) :
    ∀ (l : List Document),
      l.Pairwise (fun a b => dist2 q a.embedding ≤ dist2 q b.embedding) →
      (insertByDist q d l).Pairwise
        (fun a b => dist2 q a.embedding ≤ dist2 q b.embedding) := by
  intro l
  induction l with
  | nil => intro _; simp [insertByDist]
  | cons e es ih =>
    intro hp
    rcases List.pairwise_cons.mp hp with ⟨he, hes⟩
    simp only [insertByDist]
    by_cases h : dist2 q d.embedding ≤ dist2 q e.embedding
    · rw [if_pos h]
      refine List.pairwise_cons.mpr ⟨?_, hp⟩
      intro x hx
      rcases List.mem_cons.mp hx with h1 | h1
      · subst h1
        exact h
      · exact le_trans h (he x h1)
    · rw [if_neg h]
      have hed : dist2 q e.embedding ≤ dist2 q d.embedding :=
        le_of_lt (lt_of_not_le h)
      refine List.pairwise_cons.mpr ⟨?_, ih hes⟩
      intro x hx
      rcases (mem_insertByDist q d x es).mp hx with h1 | h1
      · subst h1
        exact hed
      · exact he x h1

/-- The executable ordering is non-strictly sorted by ascending
distance. -/
theorem pairwise_le_orderByDist (q : List Int) :
    ∀ (l : List Document),
      (orderByDist q l).Pairwise
        (fun a b => dist2 q a.embedding ≤ dist2 q b.embedding) := by
  intro l
  induction l with
  | nil => simp [orderByDist]
  | cons d l' ih =>
    have h : orderByDist q (d :: l') = insertByDist q d (orderByDist q l') :=
      rfl
    rw [h]
    exact pairwise_le_insertByDist q d _ ih

theorem mem_nearest_user (docs : List Document) (uid : Nat) (q : List Int)
    (k : Nat) : ∀ d ∈ nearest docs uid q k, d.user_id = uid := by
  intro d hd
  have h1 : d ∈ orderByDist q (docs.filter (fun d => d.user_id == uid)) :=
    List.mem_of_mem_take hd
  have h2 : d ∈ docs.filter (fun d => d.user_id == uid) :=
    (perm_orderByDist q _).mem_iff.mp h1
  have := (List.mem_filter.mp h2).2
  simpa using this

/-! ### Flow lemmas -/

/-- If every chunk before position `n` embeds successfully and the chunk
at position `n` raises `e`, the ingestion loop raises `e`. -/
theorem embedAll_error_at (embed : List Char → Except DepErr (List Int)) :
    ∀ (cs : List (List Char)) (n : Nat) (e : DepErr),
      n < cs.length →
      (∀ i, i < n → ∃ v, embed (cs.getD i []) = .ok v) →
      embed (cs.getD n []) = .error e →
      embedAll embed cs = .error e := by
  intro cs
  induction cs with
  | nil =>
    intro n e hn _ _
    simp at hn
  | cons c cs' ih =>
    intro n e hn hok hfail
    match n with
    | 0 =>
      simp only [List.getD_cons_zero] at hfail
      simp [embedAll, hfail]
    | n' + 1 =>
      rcases hok 0 (Nat.succ_pos n') with ⟨v, hv⟩
      simp only [List.getD_cons_zero] at hv
      have hrec : embedAll embed cs' = .error e := by
        refine ih n' e (by simpa using hn) ?_ ?_
        · intro i hi
          have := hok (i + 1) (by omega)
          simpa using this
        · simpa using hfail
      simp [embedAll, hv, hrec]

/-! ### Claim theorems -/

/-- C1 (confirmed).  Owner isolation: for any two distinct owners `A`
and `B`, the retrieval performed by `ask_question` for owner `A`
(`nearest docs A q k`) never returns a `Document` row whose `user_id` is
`B`, for any store contents, query vector, and limit. -/
theorem claim1_owner_isolation (docs : List Document) (A B : Nat)
    (q : List Int) (k : Nat) (hAB : A ≠ B) :
    ∀ d ∈ nearest docs A q k, d.user_id ≠ B := by
  intro d hd
  rw [mem_nearest_user docs A q k d hd]
  exact hAB

/-- Witness for C1 at a concrete two-owner store. -/
theorem claim1_owner_isolation_witness :
    (1 : Nat) ≠ 2 ∧ ∀ d ∈ nearest sampleDocs 1 [0, 0] 3, d.user_id ≠ 2 :=
  ⟨by decide, claim1_owner_isolation sampleDocs 1 2 [0, 0] 3 (by decide)⟩

/-- C2 counterexample.  The retrieval query has no secondary sort key,
so the database guarantees only a distance-sorted result: at the
two-row store `[docAlpha, docBeta]` — both rows of owner 1 at distance 0
from the query `[0]` — the result `[docBeta, docAlpha]` is an admissible
outcome of the program's retrieval, yet its tie is in REVERSE insertion
order, so the claim's "ties broken by insertion order" does not hold of
the program. -/
theorem claim2_nearest_ranking_counterexample :
    nearestResult [docAlpha, docBeta] 1 [0] 3 [docBeta, docAlpha]
    ∧ ¬ ([docBeta, docAlpha].Pairwise (fun a b =>
        dist2 [0] a.embedding < dist2 [0] b.embedding ∨
        (dist2 [0] a.embedding = dist2 [0] b.embedding ∧ a.id < b.id))) :=
  ⟨⟨[docBeta, docAlpha], by decide, by decide, rfl⟩, by decide⟩

/-- C2 (amended).  Retrieval never signals an error — the executable
`nearest` is always an admissible outcome — and every admissible outcome
of the retrieval statement is non-strictly sorted by ascending L2
distance (equivalently by the squared distance `dist2`), has length
`min k` (number of the owner's rows) — so fewer than `k` entries,
including zero, when fewer exist — contains only the owner's rows, and
is exactly the owner's rows (up to order) when at most `k` exist.  The
relative order of equal-distance rows is unspecified. -/
theorem claim2_nearest_ranking_amended (docs : List Document) (uid : Nat)
    (q : List Int) (k : Nat) :
    nearestResult docs uid q k (nearest docs uid q k)
    ∧ ∀ r, nearestResult docs uid q k r →
        r.Pairwise (fun a b =>
          dist2 q a.embedding ≤ dist2 q b.embedding)
        ∧ r.length = min k (docs.filter (fun d => d.user_id == uid)).length
        ∧ (∀ d ∈ r, d.user_id = uid)
        ∧ ((docs.filter (fun d => d.user_id == uid)).length ≤ k →
            r.Perm (docs.filter (fun d => d.user_id == uid))) := by
  constructor
  · exact ⟨orderByDist q (docs.filter (fun d => d.user_id == uid)),
      perm_orderByDist q _, pairwise_le_orderByDist q _, rfl⟩
  · rintro r ⟨s, hperm, hsort, hr⟩
    subst hr
    refine ⟨List.Pairwise.sublist (List.take_sublist _ _) hsort, ?_, ?_, ?_⟩
    · rw [List.length_take, hperm.length_eq]
    · intro d hd
      have h1 : d ∈ s := List.mem_of_mem_take hd
      have h2 := (List.mem_filter.mp (hperm.mem_iff.mp h1)).2
      simpa using h2
    · intro hlen
      rw [List.take_of_length_le]
      · exact hperm
      · rw [hperm.length_eq]
        exact hlen

/-- Witness for C2's amended statement at the concrete tied store. -/
theorem claim2_nearest_ranking_witness :
    nearestResult [docAlpha, docBeta] 1 [0] 3 [docAlpha, docBeta]
    ∧ ([docAlpha, docBeta].Pairwise (fun a b =>
        dist2 [0] a.embedding ≤ dist2 [0] b.embedding)
    ∧ [docAlpha, docBeta].length =
        min 3 (([docAlpha, docBeta]).filter (fun d => d.user_id == 1)).length
    ∧ (∀ d ∈ [docAlpha, docBeta], d.user_id = 1)
    ∧ ((([docAlpha, docBeta]).filter (fun d => d.user_id == 1)).length ≤ 3 →
        [docAlpha, docBeta].Perm
          (([docAlpha, docBeta]).filter (fun d => d.user_id == 1)))) := by
  have hNR : nearestResult [docAlpha, docBeta] 1 [0] 3 [docAlpha, docBeta] :=
    ⟨[docAlpha, docBeta], by decide, by decide, rfl⟩
  exact ⟨hNR,
    (claim2_nearest_ranking_amended [docAlpha, docBeta] 1 [0] 3).2
      [docAlpha, docBeta] hNR⟩

/-- C3 (confirmed).  For every text and positive `max_words`, the chunks
of `chunk_text` rejoined with single spaces reproduce the
whitespace-normalized text, and no chunk contains more than `max_words`
whitespace-separated tokens. -/
theorem claim3_chunking_roundtrip (t : List Char) (m : Nat) (hm : 0 < m) :
    joinSp (chunk_text t m) = normalizeWs t
    ∧ ∀ c ∈ chunk_text t m, (pySplit c).length ≤ m := by
  have hne : ∀ tok ∈ pySplit t, tok ≠ [] :=
    fun tok h => splitAcc_token_ne t [] tok h
  have hnw : ∀ tok ∈ pySplit t, ∀ ch ∈ tok, ch.isWhitespace = false :=
    splitAcc_token_nws t [] (by simp)
  have hbne : ∀ b ∈ window m (pySplit t), b ≠ [] :=
    fun b h => windowAux_mem_ne_nil m _ _ b h
  constructor
  · show joinSp ((window m (pySplit t)).map joinSp) = _
    rw [joinSp_blocks _ hbne, window_flatten]
    rfl
  · intro c hc
    rcases List.mem_map.mp hc with ⟨w, hw, hwc⟩
    have hsub : ∀ tok ∈ w, tok ∈ pySplit t := by
      intro tok htok
      rw [← window_flatten m (pySplit t)]
      exact List.mem_flatten.mpr ⟨w, hw, htok⟩
    have : pySplit c = w := by
      rw [← hwc]
      exact pySplit_joinSp w (fun tok htok => hne tok (hsub tok htok))
        (fun tok htok => hnw tok (hsub tok htok))
    rw [this]
    exact windowAux_mem_length m hm _ _ w hw

/-- Witness for C3 on a text with mixed whitespace. -/
theorem claim3_chunking_roundtrip_witness :
    0 < 2
    ∧ (joinSp (chunk_text "hello  world\n x".data 2) =
        normalizeWs "hello  world\n x".data
    ∧ ∀ c ∈ chunk_text "hello  world\n x".data 2, (pySplit c).length ≤ 2) :=
  ⟨by decide, claim3_chunking_roundtrip "hello  world\n x".data 2 (by decide)⟩

/-- C4 counterexample.  In the API query flow (`src/app/main.py`
`ask_question`), an empty retrieval returns the sentinel answer but does
NOT append a history entry: starting from an empty store and empty
history, the history is still empty afterwards, contradicting the claim
that a history entry is appended before returning. -/
theorem claim4_empty_retrieval_counterexample :
    (ask_question (fun _ => .ok [0]) (fun _ _ => .ok "ans".data) "q".data 1
      { documents := [], chat_history := [] }).2 = .ok sentinel
    ∧ ((ask_question (fun _ => .ok [0]) (fun _ _ => .ok "ans".data) "q".data 1
      { documents := [], chat_history := [] }).1).chat_history = [] :=
  ⟨rfl, rfl⟩

/-- C4 (amended).  When retrieval is empty, the frontend query flow
(`src/frontend.py`) produces the sentinel answer and still appends the
history entry `{question, answer := sentinel, owner}`; the API query flow
(`src/app/main.py`) produces the sentinel answer but returns immediately,
leaving the history unchanged.  Both outcomes are successes, not
errors. -/
theorem claim4_empty_retrieval_amended
    (embed : List Char → Except DepErr (List Int))
    (generate : List Char → List (List Char) → Except DepErr (List Char))
    (query : List Char) (uid : Nat) (db : DB) (qv : List Int)
    (h1 : embed query = .ok qv)
    (h2 : nearest db.documents uid qv 3 = []) :
    ask_question embed generate query uid db = (db, .ok sentinel)
    ∧ ask_question_frontend embed generate query uid db =
      ({ db with chat_history := db.chat_history ++
          [{ id := nextHistId db, question := query, answer := sentinel,
             user_id := uid }] },
       sentinel) := by
  unfold ask_question ask_question_frontend
  rw [h1]
  simp [h2]

/-- Witness for C4's amended statement at a concrete empty store. -/
theorem claim4_empty_retrieval_witness :
    nearest (DB.mk [] []).documents 5 [1] 3 = []
    ∧ ask_question (fun _ => .ok [1]) (fun _ _ => .ok ['x']) "q".data 5
        (DB.mk [] []) = (DB.mk [] [], .ok sentinel)
    ∧ ask_question_frontend (fun _ => .ok [1]) (fun _ _ => .ok ['x']) "q".data 5
        (DB.mk [] []) =
        (DB.mk [] [{ id := 1, question := "q".data, answer := sentinel,
                     user_id := 5 }], sentinel) :=
  ⟨rfl,
   (claim4_empty_retrieval_amended (fun _ => .ok [1]) (fun _ _ => .ok ['x'])
     "q".data 5 (DB.mk [] []) [1] rfl rfl).1,
   (claim4_empty_retrieval_amended (fun _ => .ok [1]) (fun _ _ => .ok ['x'])
     "q".data 5 (DB.mk [] []) [1] rfl rfl).2⟩

/-- C5 counterexample.  The API endpoint `delete_documents_by_source`
(`src/app/main.py`) raises `HTTPException(404)` when no rows match,
contradicting the claim that no-match returns `0` without error. -/
theorem claim5_delete_by_source_counterexample :
    (delete_documents_by_source "a.txt" 1
      { documents := [], chat_history := [] }).2 =
      .error (.httpException 404 "No documents found for this source") :=
  rfl

/-- C5 (amended).  The frontend `delete_documents_by_source` deletes all
of the owner's rows with the matching source label and returns the true
count, keeps every other row, and a second call returns `0` with no
error; the API endpoint (`src/app/main.py`), however, raises
`HTTPException(404)` whenever the deleted count is `0`, so its second
call in a row errors instead of returning `0`. -/
theorem claim5_delete_by_source_amended (source : String) (uid : Nat)
    (db : DB) :
    (delete_documents_by_source_frontend source uid db).2 =
      db.documents.countP (matchesSource uid source)
    ∧ (∀ d ∈ (delete_documents_by_source_frontend source uid db).1.documents,
        matchesSource uid source d = false)
    ∧ (∀ d ∈ db.documents, matchesSource uid source d = false →
        d ∈ (delete_documents_by_source_frontend source uid db).1.documents)
    ∧ delete_documents_by_source_frontend source uid
        (delete_documents_by_source_frontend source uid db).1 =
        ((delete_documents_by_source_frontend source uid db).1, 0)
    ∧ (delete_documents_by_source source uid
        (delete_documents_by_source_frontend source uid db).1).2 =
        .error (.httpException 404 "No documents found for this source") := by
  obtain ⟨docsl, ch⟩ := db
  have hcount : ∀ l : List Document,
      (l.filter (fun d => !matchesSource uid source d)).countP
        (matchesSource uid source) = 0 := by
    intro l
    rw [List.countP_eq_zero]
    intro d hd
    have := (List.mem_filter.mp hd).2
    simp only [Bool.not_eq_eq_eq_not, Bool.not_true] at this
    simp [this]
  have hidem : ∀ l : List Document,
      (l.filter (fun d => !matchesSource uid source d)).filter
        (fun d => !matchesSource uid source d) =
        l.filter (fun d => !matchesSource uid source d) := by
    intro l
    rw [List.filter_filter]
    simp [Bool.and_self]
  have hF1 : (delete_documents_by_source_frontend source uid (DB.mk docsl ch)).1 =
      DB.mk (docsl.filter (fun d => !matchesSource uid source d)) ch := rfl
  refine ⟨rfl, ?_, ?_, ?_, ?_⟩
  · intro d hd
    rw [hF1] at hd
    have hd' : d ∈ docsl.filter (fun d => !matchesSource uid source d) := hd
    have := (List.mem_filter.mp hd').2
    simp only [Bool.not_eq_eq_eq_not, Bool.not_true] at this
    exact this
  · intro d hd hm
    rw [hF1]
    show d ∈ docsl.filter (fun d => !matchesSource uid source d)
    exact List.mem_filter.mpr ⟨hd, by simp [hm]⟩
  · rw [hF1]
    have hstep : delete_documents_by_source_frontend source uid
        (DB.mk (docsl.filter (fun d => !matchesSource uid source d)) ch) =
        (DB.mk ((docsl.filter (fun d => !matchesSource uid source d)).filter
            (fun d => !matchesSource uid source d)) ch,
         (docsl.filter (fun d => !matchesSource uid source d)).countP
            (matchesSource uid source)) := rfl
    rw [hstep, hidem docsl, hcount docsl]
  · rw [hF1]
    simp [delete_documents_by_source, hcount docsl]

set_option maxRecDepth 100000 in
/-- C6 counterexample.  `text101` chunks into two chunks; the embedder
`embedShortFail` succeeds on the first chunk and raises on the second;
yet after the failed ingestion call the committed store is unchanged —
the first, already-processed chunk was NOT committed, because the single
`db.commit()` sits after the loop and is never reached. -/
theorem claim6_partial_failure_counterexample :
    (chunk_text text101 100).length = 2
    ∧ embedShortFail (joinSp (List.replicate 100 ['a'])) = .ok [0]
    ∧ embedAll embedShortFail (chunk_text text101 100) = .error .embedFail
    ∧ ingest_file embedShortFail "f.txt" text101 1
        { documents := [], chat_history := [] } =
        ({ documents := [], chat_history := [] }, .error .embedFail) := by
  refine ⟨by decide, by decide, by decide, by decide⟩

/-- C6 (amended).  If embedding fails while processing chunk `N` of an
ingestion call (all earlier chunks embedding fine), then NO chunk of that
call is committed: the rows are only staged by `db.add` and the single
`db.commit()` after the loop never executes, so the Vector Store is left
exactly as it was before the call. -/
theorem claim6_partial_failure_amended
    (embed : List Char → Except DepErr (List Int)) (filename : String)
    (text : List Char) (uid : Nat) (db : DB) (n : Nat) (e : DepErr)
    (hn : n < (chunk_text text 100).length)
    (hok : ∀ i, i < n → ∃ v, embed ((chunk_text text 100).getD i []) = .ok v)
    (hfail : embed ((chunk_text text 100).getD n []) = .error e) :
    ingest_file embed filename text uid db = (db, .error e) := by
  have h := embedAll_error_at embed (chunk_text text 100) n e hn hok hfail
  simp [ingest_file, h]

set_option maxRecDepth 100000 in
/-- Witness for C6's amended statement: the concrete failing ingestion of
`text101` with `embedShortFail`. -/
theorem claim6_partial_failure_witness :
    1 < (chunk_text text101 100).length
    ∧ ingest_file embedShortFail "f.txt" text101 1
        { documents := [], chat_history := [] } =
        ({ documents := [], chat_history := [] }, .error .embedFail) :=
  ⟨by decide,
   claim6_partial_failure_amended embedShortFail "f.txt" text101 1
     { documents := [], chat_history := [] } 1 .embedFail (by decide)
     (fun i hi => ⟨[0], by
       have h0 : i = 0 := by omega
       subst h0
       decide⟩)
     (by decide)⟩

/-- C7 (code bug).  `src/app/embedding.py` constructs a
`SentenceTransformer` at import time but binds it to no name, so the
`embedder` global that `get_embedding` dereferences is undefined: every
call to `get_embedding` raises `NameError('embedder')` instead of
returning a 384-dimensional vector, whatever the input text and whatever
the encoder would compute. -/
theorem claim7_embedding_name_error :
    ∀ (encode : List Char → List Int) (text : List Char),
      get_embedding encode text = .error (.nameError "embedder") := by
  intro encode text
  rfl

/-- C8 (confirmed).  Whitespace-only (or empty) text chunks to the empty
sequence for every window size, and ingesting it is a no-op success: no
`Document` row is stored and the database is unchanged. -/
theorem claim8_whitespace_noop (text : List Char)
    (hws : ∀ c ∈ text, c.isWhitespace = true) :
    (∀ m, chunk_text text m = [])
    ∧ ∀ (embed : List Char → Except DepErr (List Int)) (filename : String)
        (uid : Nat) (db : DB),
        ingest_file embed filename text uid db = (db, .ok ()) := by
  have hsplit : pySplit text = [] := splitAcc_all_ws text hws
  have hchunk : ∀ m, chunk_text text m = [] := by
    intro m
    unfold chunk_text
    rw [hsplit]
    rfl
  refine ⟨hchunk, ?_⟩
  intro embed filename uid db
  unfold ingest_file
  rw [hchunk 100]
  simp [embedAll]

/-- Witness for C8 on a text of three whitespace characters. -/
theorem claim8_whitespace_noop_witness :
    (∀ c ∈ " \t\n".data, c.isWhitespace = true)
    ∧ ((∀ m, chunk_text " \t\n".data m = [])
    ∧ ∀ (embed : List Char → Except DepErr (List Int)) (filename : String)
        (uid : Nat) (db : DB),
        ingest_file embed filename " \t\n".data uid db = (db, .ok ())) :=
  ⟨by decide, claim8_whitespace_noop " \t\n".data (by decide)⟩

/-- C9 (confirmed).  If the answer-generator call fails in the API query
flow, the request aborts with that error and the database — in
particular the history log — is unchanged; and this error outcome is
distinct from the successful empty-retrieval sentinel outcome. -/
theorem claim9_generator_failure
    (embed : List Char → Except DepErr (List Int))
    (generate : List Char → List (List Char) → Except DepErr (List Char))
    (query : List Char) (uid : Nat) (db : DB) (qv : List Int) (e : DepErr)
    (h1 : embed query = .ok qv)
    (h2 : nearest db.documents uid qv 3 ≠ [])
    (h3 : generate query ((nearest db.documents uid qv 3).map Document.chunk) =
      .error e) :
    ask_question embed generate query uid db = (db, .error e)
    ∧ (Except.error e ≠ (Except.ok sentinel : Except DepErr (List Char))) := by
  constructor
  · unfold ask_question
    rw [h1]
    have hne : (nearest db.documents uid qv 3).isEmpty = false := by
      simpa [List.isEmpty_iff] using h2
    simp [hne, h3]
  · simp

/-- Witness for C9: a one-row store whose generator call fails. -/
theorem claim9_generator_failure_witness :
    nearest (DB.mk [{ id := 1, chunk := "ctx".data, embedding := [0],
                      source := "a.txt", user_id := 7 }] []).documents 7 [0] 3 ≠ []
    ∧ ask_question (fun _ => .ok [0]) (fun _ _ => .error .generateFail)
        "q".data 7
        (DB.mk [{ id := 1, chunk := "ctx".data, embedding := [0],
                  source := "a.txt", user_id := 7 }] []) =
        (DB.mk [{ id := 1, chunk := "ctx".data, embedding := [0],
                  source := "a.txt", user_id := 7 }] [], .error .generateFail) :=
  ⟨by decide,
   (claim9_generator_failure (fun _ => .ok [0]) (fun _ _ => .error .generateFail)
     "q".data 7
     (DB.mk [{ id := 1, chunk := "ctx".data, embedding := [0],
               source := "a.txt", user_id := 7 }] []) [0] .generateFail
     rfl (by decide) rfl).1⟩

/-- C10 (confirmed).  `delete_chat_history` with an empty id list returns
`0`, raises nothing, and leaves the database — every owner's history —
untouched. -/
theorem claim10_empty_history_delete (uid : Nat) (db : DB) :
    delete_chat_history [] uid db = (db, 0) :=
  rfl

end Rag
